import Mathlib

/-!
Verification of the cache layer of `ytls` (src/ytls.py).

The development shallowly embeds the stateful Python code:

* the on-disk cache directory is a finite association list from file names to
  byte streams (`FS`);
* `pickle` is modelled by an executable codec over the closed set of value
  shapes the program actually stores (string-to-string mappings, lists of
  opaque upload records, sets of strings).  Faithful to CPython `pickle`:
  loading an empty stream raises `EOFError`, loading an undecodable stream
  raises `UnpicklingError`, and `load` after `dump` returns the dumped value;
* each stateful operation of the program returns its result value, the new
  file system, the list of network queries it issued, and counts of cache
  writes and cache loads, so that claims about side effects are statable.
-/

set_option autoImplicit false

namespace Ytls

/-- One abstract byte of a serialized stream: an opcode byte, a length byte,
or a data (character) byte.  Arbitrary lists of `PByte` model arbitrary
(possibly corrupted) file contents. -/
inductive PByte where
  | op : Nat → PByte
  | num : Nat → PByte
  | ch : Char → PByte
deriving DecidableEq, Repr

/-- The closed set of value shapes the program pickles: the channel-id
mapping (`dict` of string to string), upload lists (elements opaque), and the
view-history `set` of video-id strings. -/
inductive Value where
  | vdict : List (String × String) → Value
  | vlist : List String → Value
  | vset : List String → Value
deriving DecidableEq, Repr

/-- Serialize one string: a length byte followed by its characters. -/
def encodeStr (s : String) : List PByte :=
  PByte.num s.length :: s.data.map PByte.ch

/-- Serialize a list of strings back to back. -/
def encodeStrs (l : List String) : List PByte :=
  l.flatMap encodeStr

/-- Serialize a list of key-value string pairs back to back. -/
def encodePairs (m : List (String × String)) : List PByte :=
  m.flatMap (fun p => encodeStr p.1 ++ encodeStr p.2)

/-- Model of `pickle.dump`: an opcode for the value shape, a length byte,
then the serialized elements. -/
def pickleDumps : Value → List PByte
  | .vdict m => PByte.op 0 :: PByte.num m.length :: encodePairs m
  | .vlist l => PByte.op 1 :: PByte.num l.length :: encodeStrs l
  | .vset s => PByte.op 2 :: PByte.num s.length :: encodeStrs s

/-- Read exactly `n` data bytes as characters. -/
def readChars : Nat → List PByte → Option (List Char × List PByte)
  | 0, bs => some ([], bs)
  | n + 1, PByte.ch c :: bs =>
    match readChars n bs with
    | some (cs, rest) => some (c :: cs, rest)
    | none => none
  | _ + 1, _ => none

/-- Read one serialized string. -/
def readStr : List PByte → Option (String × List PByte)
  | PByte.num n :: bs =>
    match readChars n bs with
    | some (cs, rest) => some (String.mk cs, rest)
    | none => none
  | _ => none

/-- Read `n` serialized strings. -/
def readStrs : Nat → List PByte → Option (List String × List PByte)
  | 0, bs => some ([], bs)
  | n + 1, bs =>
    match readStr bs with
    | some (s, bs1) =>
      match readStrs n bs1 with
      | some (l, rest) => some (s :: l, rest)
      | none => none
    | none => none

/-- Read `n` serialized key-value pairs. -/
def readPairs : Nat → List PByte → Option (List (String × String) × List PByte)
  | 0, bs => some ([], bs)
  | n + 1, bs =>
    match readStr bs with
    | some (k, bs1) =>
      match readStr bs1 with
      | some (v, bs2) =>
        match readPairs n bs2 with
        | some (m, rest) => some ((k, v) :: m, rest)
        | none => none
      | none => none
    | none => none

/-- Decode one value from the head of a stream. -/
def decodeValue : List PByte → Option (Value × List PByte)
  | PByte.op 0 :: PByte.num n :: bs => (readPairs n bs).map (fun p => (Value.vdict p.1, p.2))
  | PByte.op 1 :: PByte.num n :: bs => (readStrs n bs).map (fun p => (Value.vlist p.1, p.2))
  | PByte.op 2 :: PByte.num n :: bs => (readStrs n bs).map (fun p => (Value.vset p.1, p.2))
  | _ => none

/-- Outcome of `pickle.load` on a byte stream. -/
inductive PickleResult where
  | ok : Value → PickleResult
  | eofError : PickleResult
  | unpicklingError : PickleResult
deriving DecidableEq, Repr

/-- Model of `pickle.load`: an empty file raises `EOFError` ("Ran out of
input"); a nonempty stream that does not decode raises `UnpicklingError`. -/
def pickleLoads (bs : List PByte) : PickleResult :=
  match bs with
  | [] => .eofError
  | _ =>
    match decodeValue bs with
    | some (v, _) => .ok v
    | none => .unpicklingError

theorem readChars_encode (cs : List Char) (rest : List PByte) :
    readChars cs.length (cs.map PByte.ch ++ rest) = some (cs, rest) := by
  induction cs with
  | nil => rfl
  | cons c cs ih => simp [readChars, ih]

theorem readStr_encode (s : String) (rest : List PByte) :
    readStr (encodeStr s ++ rest) = some (s, rest) := by
  cases s with
  | mk data => simp [encodeStr, readStr, readChars_encode]

theorem readStrs_encode (l : List String) (rest : List PByte) :
    readStrs l.length (encodeStrs l ++ rest) = some (l, rest) := by
  induction l generalizing rest with
  | nil => rfl
  | cons s l ih =>
    simp only [encodeStrs, List.flatMap_cons, List.length_cons, List.append_assoc]
    simp only [readStrs, readStr_encode]
    rw [show l.flatMap encodeStr = encodeStrs l from rfl, ih]

theorem readPairs_encode (m : List (String × String)) (rest : List PByte) :
    readPairs m.length (encodePairs m ++ rest) = some (m, rest) := by
  induction m generalizing rest with
  | nil => rfl
  | cons p m ih =>
    simp only [encodePairs, List.flatMap_cons, List.length_cons, List.append_assoc]
    simp only [readPairs, readStr_encode]
    rw [show (m.flatMap fun p => encodeStr p.1 ++ encodeStr p.2) = encodePairs m from rfl, ih]

theorem decodeValue_dumps (v : Value) (rest : List PByte) :
    decodeValue (pickleDumps v ++ rest) = some (v, rest) := by
  cases v with
  | vdict m => simp [pickleDumps, decodeValue, readPairs_encode]
  | vlist l => simp [pickleDumps, decodeValue, readStrs_encode]
  | vset s => simp [pickleDumps, decodeValue, readStrs_encode]

theorem pickleLoads_dumps (v : Value) : pickleLoads (pickleDumps v) = .ok v := by
  have h := decodeValue_dumps v []
  rw [List.append_nil] at h
  cases v <;> simp [pickleLoads, pickleDumps] <;> rw [show pickleDumps _ = _ from rfl] at h <;>
    simp_all [pickleDumps]

/-- The cache directory: file name to file contents. -/
abbrev FS := List (String × List PByte)

/-- Model of `os.path.isfile` plus `open(...,'rb').read()`. -/
def FS.lookup : FS → String → Option (List PByte)
  | [], _ => none
  | (n, bs) :: rest, name => if n = name then some bs else FS.lookup rest name

/-- Model of `open(...,'wb')` plus a full write: overwrite or create. -/
def FS.write : FS → String → List PByte → FS
  | [], name, bs => [(name, bs)]
  | (n, b) :: rest, name, bs =>
    if n = name then (n, bs) :: rest else (n, b) :: FS.write rest name bs

theorem FS.lookup_write_self (fs : FS) (name : String) (bs : List PByte) :
    FS.lookup (FS.write fs name bs) name = some bs := by
  induction fs with
  | nil => simp [FS.write, FS.lookup]
  | cons e rest ih =>
    by_cases h : e.1 = name
    · simp [FS.write, FS.lookup, h]
    · simp [FS.write, FS.lookup, h, ih]

/-- Python exceptions that can escape the modelled operations. -/
inductive PyErr where
  | unpicklingError : PyErr
  | attributeError : PyErr
deriving DecidableEq, Repr

/-- Embedding of `Cachable.load_cache` (src/ytls.py lines 66-79).
`Option Value` models a Python value that may be `None`: the caller's
`default` may be `None` (`Option.none`).  The code catches only `EOFError`;
an `UnpicklingError` from corrupted bytes propagates. -/
def load_cache (fs : FS) (cache_name : String) (default : Option Value) :
    Except PyErr (Option Value) :=
  match FS.lookup fs cache_name with
  | none => .ok default
  | some bs =>
    match pickleLoads bs with
    | .ok v => .ok (some v)
    | .eofError => .ok default
    | .unpicklingError => .error .unpicklingError

/-- Embedding of `Cachable.save_cache` (src/ytls.py lines 81-86): writing
`None` is a no-op, otherwise the pickled data overwrites the file. -/
def save_cache (fs : FS) (cache_name : String) (data : Option Value) : FS :=
  match data with
  | none => fs
  | some v => FS.write fs cache_name (pickleDumps v)

/-- C2: saving a (non-nil) record under a key and loading that key returns
the record, for every prior file-system state and every caller default.
`Except.ok (some r)` is Python `load_cache` returning the record `r` without
raising. -/
theorem save_then_load_roundtrip (fs : FS) (k : String) (r : Value) (d : Option Value) :
    load_cache (save_cache fs k (some r)) k d = .ok (some r) := by
  simp [load_cache, save_cache, FS.lookup_write_self, pickleLoads_dumps]

/-- C1 (counterexample): a file whose bytes are corrupted (here a stream with
an invalid leading opcode, as `pickle` meets on arbitrary corruption) makes
`load_cache` raise `UnpicklingError` instead of returning the caller default:
the claim that `load` never raises on arbitrarily corrupted bytes is false. -/
theorem load_cache_corrupt_raises :
    load_cache [("k.pkl", [PByte.op 99])] "k.pkl" (some (Value.vdict [])) =
      .error PyErr.unpicklingError := by
  rfl

/-- C1 (amended): `load_cache` returns the caller default when the file is
missing, and when deserialization fails with `EOFError` (empty stream); when
deserialization fails with `UnpicklingError` (corrupted nonempty stream) the
error propagates to the caller. -/
theorem load_cache_soft_fail (fs : FS) (name : String) (d : Option Value) :
    (FS.lookup fs name = none → load_cache fs name d = .ok d) ∧
    (∀ bs, FS.lookup fs name = some bs → pickleLoads bs = .eofError →
      load_cache fs name d = .ok d) ∧
    (∀ bs, FS.lookup fs name = some bs → pickleLoads bs = .unpicklingError →
      load_cache fs name d = .error .unpicklingError) := by
  refine ⟨fun h => ?_, fun bs h1 h2 => ?_, fun bs h1 h2 => ?_⟩
  · simp [load_cache, h]
  · simp [load_cache, h1, h2]
  · simp [load_cache, h1, h2]

/-- C1 (witness): the amended theorem applied at concrete inputs: a missing
file, an empty file, and a corrupted file. -/
theorem load_cache_soft_fail_witness :
    (load_cache [] "a.pkl" (some (Value.vset [])) = .ok (some (Value.vset []))) ∧
    (load_cache [("b.pkl", [])] "b.pkl" none = .ok none) ∧
    (load_cache [("c.pkl", [PByte.ch 'g'])] "c.pkl" none = .error .unpicklingError) :=
  ⟨(load_cache_soft_fail [] "a.pkl" (some (Value.vset []))).1 rfl,
   (load_cache_soft_fail [("b.pkl", [])] "b.pkl" none).2.1 [] rfl rfl,
   (load_cache_soft_fail [("c.pkl", [PByte.ch 'g'])] "c.pkl" none).2.2 [PByte.ch 'g'] rfl rfl⟩

/-- Python `dict.get(key, None)` on an insertion-ordered mapping. -/
def dictGet : List (String × String) → String → Option String
  | [], _ => none
  | (k, v) :: rest, key => if k = key then some v else dictGet rest key

/-- Python `d[key] = value`: update in place, or append a new key. -/
def dictSet : List (String × String) → String → String → List (String × String)
  | [], key, value => [(key, value)]
  | (k, v) :: rest, key, value =>
    if k = key then (k, value) :: rest else (k, v) :: dictSet rest key value

theorem dictGet_dictSet_self (m : List (String × String)) (key value : String) :
    dictGet (dictSet m key value) key = some value := by
  induction m with
  | nil => simp [dictSet, dictGet]
  | cons e rest ih =>
    by_cases h : e.1 = key
    · simp [dictSet, dictGet, h]
    · simp [dictSet, dictGet, h, ih]

/-- The observable outcome of one stateful operation: its return value, the
file system afterwards, the network queries issued (request identifiers, in
order), and how many cache writes and cache loads it performed. -/
structure OpResult (α : Type) where
  value : α
  fs : FS
  netQueries : List String
  cacheWrites : Nat
  cacheLoads : Nat
deriving DecidableEq, Repr

/-- The network queries an operation issued (none if it raised before
querying). -/
def queriesOf {α : Type} : Except PyErr (OpResult α) → List String
  | .ok r => r.netQueries
  | .error _ => []

/-- The fixed cache key of the handle-to-identifier mapping
(`ChannelID.__init__`, src/ytls.py line 120). -/
def channelIdsCacheName : String := "channel_ids.pkl"

/-- Embedding of `ChannelID.get` (src/ytls.py lines 122-142).  `oracle`
models the YouTube API response id for a `forUsername` query.  On a mapping
miss it queries once, inserts, and persists the whole mapping; on a hit it
returns the cached identifier with no query and no write.  A cached value
that is not a mapping makes Python `ids.get` raise `AttributeError`. -/
def channelID_get (oracle : String → String) (fs : FS) (username : String) :
    Except PyErr (OpResult String) :=
  match load_cache fs channelIdsCacheName (some (Value.vdict [])) with
  | .error e => .error e
  | .ok idsVal =>
    match idsVal with
    | some (Value.vdict ids) =>
      match dictGet ids username with
      | some channel_id => .ok ⟨channel_id, fs, [], 0, 1⟩
      | none =>
        let channel_id := oracle username
        let ids2 := dictSet ids username channel_id
        .ok ⟨channel_id, save_cache fs channelIdsCacheName (some (Value.vdict ids2)),
             [username], 1, 1⟩
    | _ => .error .attributeError

/-- The literal-identifier test from `get_videos` (src/ytls.py line 421):
`user.startswith('UC') and len(user) == 24`. -/
def startsWithUC (s : String) : Bool :=
  match s.data with
  | c1 :: c2 :: _ => c1 == 'U' && c2 == 'C'
  | _ => false

def is_literal_channel_id (user : String) : Bool :=
  startsWithUC user && user.length == 24

/-- Embedding of the channel-id selection in `get_videos`
(src/ytls.py lines 421-424): a literal-shaped handle is used as is, with no
cache access and no network query; otherwise `ChannelID.get` resolves it. -/
def resolve_handle (oracle : String → String) (fs : FS) (user : String) :
    Except PyErr (OpResult String) :=
  if is_literal_channel_id user then .ok ⟨user, fs, [], 0, 0⟩
  else channelID_get oracle fs user

/-- Embedding of `re.sub('^UC', 'UU', channel_id)`
(`ChannelUploads.__init__`, src/ytls.py line 151): the anchored pattern
rewrites a leading `UC` to `UU` and leaves other strings unchanged. -/
def uploadsId (channel_id : String) : String :=
  match channel_id.data with
  | c1 :: c2 :: rest =>
    if c1 == 'U' && c2 == 'C' then String.mk ('U' :: 'U' :: rest) else channel_id
  | _ => channel_id

/-- Python `str.ljust(width, fill)`. -/
def ljust (s : String) (width : Nat) (fill : Char) : String :=
  s ++ String.mk (List.replicate (width - s.length) fill)

/-- The upload-cache file name from `ChannelUploads.__init__`
(src/ytls.py lines 154-156): `f'{channel_id}.{timestamp.ljust(10, "0")}.pkl'`
(`os.path.join` of a single component is the identity). -/
def uploads_cache_name (channel_id timestamp : String) : String :=
  channel_id ++ "." ++ ljust timestamp 10 '0' ++ ".pkl"

/-- Python truthiness of the cached value (`not uploads`). -/
def Value.isTruthy : Value → Bool
  | .vdict m => !m.isEmpty
  | .vlist l => !l.isEmpty
  | .vset s => !s.isEmpty

/-- Embedding of `ChannelUploads.get` (src/ytls.py lines 158-177).  `net`
models the API `playlistItems` response items (opaque upload records) for a
playlist id.  The cached value is loaded with default `list()`; a falsy
cached value or `force` triggers one query whose result list is persisted
under the same key and returned. -/
def channelUploads_get (net : String → List String) (fs : FS)
    (channel_id timestamp : String) (force : Bool) :
    Except PyErr (OpResult Value) :=
  let cache_name := uploads_cache_name channel_id timestamp
  match load_cache fs cache_name (some (Value.vlist [])) with
  | .error e => .error e
  | .ok uploadsVal =>
    let uploads := uploadsVal.getD (Value.vlist [])
    if !uploads.isTruthy || force then
      let items := net (uploadsId channel_id)
      .ok ⟨Value.vlist items, save_cache fs cache_name (some (Value.vlist items)),
           [uploadsId channel_id], 1, 1⟩
    else
      .ok ⟨uploads, fs, [], 0, 1⟩

/-- The fixed cache key of the view history (`ViewHistory.__init__`,
src/ytls.py line 217). -/
def viewHistoryCacheName : String := "view_history.pkl"

/-- Python `set.add`: membership-preserving insert. -/
def setInsert (x : String) (s : List String) : List String :=
  if x ∈ s then s else x :: s

/-- Embedding of `ViewHistory.add` (src/ytls.py lines 220-222): insert into
the in-memory set `views` and persist the entire in-memory set.  Returns the
new in-memory set and the new file system. -/
def viewHistory_add (fs : FS) (views : List String) (video_id : String) :
    List String × FS :=
  let views2 := setInsert video_id views
  (views2, save_cache fs viewHistoryCacheName (some (Value.vset views2)))

/-- Embedding of `ViewHistory.get` (src/ytls.py lines 224-226): reload the
persisted set (default `set()`); this is the snapshot a fresh process sees. -/
def viewHistory_get (fs : FS) : Except PyErr (Option Value) :=
  load_cache fs viewHistoryCacheName (some (Value.vset []))

/-- A wall-clock instant as `strftime` sees it: calendar year, month, day,
hour of day, and `%U` week-of-year number. -/
structure Tm where
  year : Nat
  month : Nat
  day : Nat
  hour : Nat
  week : Nat
deriving DecidableEq, Repr

/-- Two-digit zero-padded decimal rendering (`strftime` `%m`, `%d`, `%H`,
`%U` for in-range values). -/
def pad2 (n : Nat) : String :=
  String.mk [Nat.digitChar (n / 10), Nat.digitChar (n % 10)]

/-- Four-digit zero-padded decimal rendering (`strftime` `%Y` for years
below 10000). -/
def pad4 (n : Nat) : String :=
  String.mk [Nat.digitChar (n / 1000), Nat.digitChar (n / 100 % 10),
    Nat.digitChar (n / 10 % 10), Nat.digitChar (n % 10)]

/-- `strftime('%Y%m%d')`. -/
def fmt_Ymd (t : Tm) : String :=
  pad4 t.year ++ pad2 t.month ++ pad2 t.day

/-- `strftime('%Y%m%d%H')`. -/
def fmt_YmdH (t : Tm) : String :=
  fmt_Ymd t ++ pad2 t.hour

/-- `strftime('%Y%m%U')`. -/
def fmt_YmU (t : Tm) : String :=
  pad4 t.year ++ pad2 t.month ++ pad2 t.week

/-- `strftime('%Y%m')`. -/
def fmt_Ym (t : Tm) : String :=
  pad4 t.year ++ pad2 t.month

/-- Embedding of the bucket-key dispatch in `get_videos`
(src/ytls.py lines 426-434): a dictionary from the granularity letter to a
`strftime` string, whose `.get` default is the current date concatenated with
`str(int(strftime('%H')) // 4)`. -/
def bucket_timestamp (cl : String) (t : Tm) : String :=
  if cl = "h" then fmt_YmdH t
  else if cl = "d" then fmt_Ymd t
  else if cl = "w" then fmt_YmU t
  else if cl = "m" then fmt_Ym t
  else if cl = "y" then pad4 t.year
  else fmt_Ymd t ++ Nat.repr (t.hour / 4)

theorem digitChar_injOn (a b : Nat) (ha : a < 10) (hb : b < 10)
    (h : Nat.digitChar a = Nat.digitChar b) : a = b := by
  interval_cases a <;> interval_cases b <;> revert h <;> decide

theorem fmt_Ymd_inj (t1 t2 : Tm) (hy1 : t1.year < 10000) (hy2 : t2.year < 10000)
    (hm1 : t1.month < 100) (hm2 : t2.month < 100) (hd1 : t1.day < 100) (hd2 : t2.day < 100)
    (h : fmt_Ymd t1 = fmt_Ymd t2) :
    t1.year = t2.year ∧ t1.month = t2.month ∧ t1.day = t2.day := by
  have hdata := congrArg String.data h
  simp only [fmt_Ymd, pad4, pad2, String.data_append, List.cons_append, List.nil_append,
    List.cons.injEq, and_true] at hdata
  obtain ⟨e1, e2, e3, e4, e5, e6, e7, e8⟩ := hdata
  have g1 := digitChar_injOn _ _ (by omega) (by omega) e1
  have g2 := digitChar_injOn _ _ (by omega) (by omega) e2
  have g3 := digitChar_injOn _ _ (by omega) (by omega) e3
  have g4 := digitChar_injOn _ _ (by omega) (by omega) e4
  have g5 := digitChar_injOn _ _ (by omega) (by omega) e5
  have g6 := digitChar_injOn _ _ (by omega) (by omega) e6
  have g7 := digitChar_injOn _ _ (by omega) (by omega) e7
  have g8 := digitChar_injOn _ _ (by omega) (by omega) e8
  refine ⟨?_, ?_, ?_⟩ <;> omega

theorem repr_div4_length (h : Nat) (hh : h < 24) : (Nat.repr (h / 4)).length = 1 := by
  have h6 : h / 4 < 6 := by omega
  set q := h / 4 with hq
  interval_cases q <;> rfl

theorem bucket_timestamp_length_le (cl : String) (t : Tm) (hh : t.hour < 24) :
    (bucket_timestamp cl t).length ≤ 10 := by
  unfold bucket_timestamp
  split_ifs
  · exact Nat.le_refl 10
  · show (8 : Nat) ≤ 10
    omega
  · show (8 : Nat) ≤ 10
    omega
  · show (6 : Nat) ≤ 10
    omega
  · show (4 : Nat) ≤ 10
    omega
  · rw [String.length_append, repr_div4_length t.hour hh]
    show (8 : Nat) + 1 ≤ 10
    omega

theorem ljust_data_length (s : String) (hs : s.length ≤ 10) :
    (ljust s 10 '0').data.length = 10 := by
  show (s.data ++ List.replicate (10 - s.length) '0').length = 10
  simp only [List.length_append, List.length_replicate]
  have : s.length = s.data.length := rfl
  omega

theorem uploads_cache_name_inj_channel (c1 c2 ts1 ts2 : String)
    (h1 : ts1.length ≤ 10) (h2 : ts2.length ≤ 10) (hc : c1 ≠ c2) :
    uploads_cache_name c1 ts1 ≠ uploads_cache_name c2 ts2 := by
  intro h
  apply hc
  have hdata := congrArg String.data h
  have hdot : ("." : String).data = ['.'] := rfl
  have hpkl : (".pkl" : String).data = ['.', 'p', 'k', 'l'] := rfl
  simp only [uploads_cache_name, String.data_append, hdot, hpkl, List.append_assoc,
    List.singleton_append] at hdata
  have hl1 := ljust_data_length ts1 h1
  have hl2 := ljust_data_length ts2 h2
  have hlen := congrArg List.length hdata
  simp only [List.length_append, List.length_cons, hl1, hl2] at hlen
  have hcl : c1.data.length = c2.data.length := by omega
  have := (List.append_inj hdata hcl).1
  exact congrArg String.mk this

/-- C3 (counterexample): two distinct logical cache entries collide on disk:
for one channel, the hourly bucket at 10:00 on 2024-01-02 and the default
four-hour bucket covering 04:00-07:59 of the same day (dispatch letter not
in the granularity dictionary) derive the very same cache file name
`UC....2024010210.pkl`, because the default key `202401021` is right-padded
with a `0`. -/
theorem cache_name_hour_default_collision :
    uploads_cache_name "UCabcdefghijklmnopqrstuv" (bucket_timestamp "h" ⟨2024, 1, 2, 10, 0⟩) =
      uploads_cache_name "UCabcdefghijklmnopqrstuv" (bucket_timestamp "x" ⟨2024, 1, 2, 5, 0⟩) ∧
    (("h", (⟨2024, 1, 2, 10, 0⟩ : Tm)) ≠ ("x", (⟨2024, 1, 2, 5, 0⟩ : Tm))) := by
  constructor
  · decide
  · decide

/-- C3 (amended): cache file names never collide across distinct channel
identifiers (all bucket keys pad to exactly ten characters, so the channel
part is recoverable); collisions do occur between bucket keys of different
granularities for the same channel, as the counterexample shows. -/
theorem cache_name_distinct_channels (c1 c2 cl1 cl2 : String) (t1 t2 : Tm)
    (hh1 : t1.hour < 24) (hh2 : t2.hour < 24) (hc : c1 ≠ c2) :
    uploads_cache_name c1 (bucket_timestamp cl1 t1) ≠
      uploads_cache_name c2 (bucket_timestamp cl2 t2) :=
  uploads_cache_name_inj_channel c1 c2 _ _
    (bucket_timestamp_length_le cl1 t1 hh1) (bucket_timestamp_length_le cl2 t2 hh2) hc

/-- C3 (witness): the amended theorem applied to two concrete distinct
channels at concrete times and granularities. -/
theorem cache_name_distinct_channels_witness :
    uploads_cache_name "UCaaaaaaaaaaaaaaaaaaaaaa" (bucket_timestamp "h" ⟨2024, 1, 2, 10, 0⟩) ≠
      uploads_cache_name "UCbbbbbbbbbbbbbbbbbbbbbb" (bucket_timestamp "d" ⟨2024, 1, 2, 5, 0⟩) :=
  cache_name_distinct_channels "UCaaaaaaaaaaaaaaaaaaaaaa" "UCbbbbbbbbbbbbbbbbbbbbbb"
    "h" "d" ⟨2024, 1, 2, 10, 0⟩ ⟨2024, 1, 2, 5, 0⟩ (by decide) (by decide) (by decide)

/-- C8: the bucket key for any granularity letter outside the dispatch
dictionary (the default) is the current date concatenated with the hour of
day integer-divided by four; the day-granularity key is identical for two
times in the same calendar day and differs for two valid times in different
calendar days. -/
theorem bucket_default_and_day_boundary :
    (∀ (cl : String) (t : Tm), cl ≠ "h" → cl ≠ "d" → cl ≠ "w" → cl ≠ "m" → cl ≠ "y" →
      bucket_timestamp cl t = fmt_Ymd t ++ Nat.repr (t.hour / 4)) ∧
    (∀ t1 t2 : Tm, t1.year = t2.year → t1.month = t2.month → t1.day = t2.day →
      bucket_timestamp "d" t1 = bucket_timestamp "d" t2) ∧
    (∀ t1 t2 : Tm, t1.year < 10000 → t2.year < 10000 → t1.month < 100 → t2.month < 100 →
      t1.day < 100 → t2.day < 100 →
      ¬(t1.year = t2.year ∧ t1.month = t2.month ∧ t1.day = t2.day) →
      bucket_timestamp "d" t1 ≠ bucket_timestamp "d" t2) := by
  refine ⟨fun cl t h1 h2 h3 h4 h5 => by simp [bucket_timestamp, h1, h2, h3, h4, h5],
    fun t1 t2 hy hm hd => ?_, fun t1 t2 hy1 hy2 hm1 hm2 hd1 hd2 hne heq => ?_⟩
  · show fmt_Ymd t1 = fmt_Ymd t2
    simp [fmt_Ymd, hy, hm, hd]
  · have heq2 : fmt_Ymd t1 = fmt_Ymd t2 := heq
    exact hne (fmt_Ymd_inj t1 t2 hy1 hy2 hm1 hm2 hd1 hd2 heq2)

/-- C8 (witness): the theorem applied at concrete granularities and times:
a default bucket key, two times inside 2024-01-02, and the day boundary
between 2024-01-02 23:00 and 2024-01-03 00:00. -/
theorem bucket_default_and_day_boundary_witness :
    bucket_timestamp "x" ⟨2024, 1, 2, 5, 0⟩ =
      fmt_Ymd ⟨2024, 1, 2, 5, 0⟩ ++ Nat.repr ((⟨2024, 1, 2, 5, 0⟩ : Tm).hour / 4) ∧
    bucket_timestamp "d" ⟨2024, 1, 2, 5, 0⟩ = bucket_timestamp "d" ⟨2024, 1, 2, 23, 1⟩ ∧
    bucket_timestamp "d" ⟨2024, 1, 2, 23, 0⟩ ≠ bucket_timestamp "d" ⟨2024, 1, 3, 0, 0⟩ :=
  ⟨bucket_default_and_day_boundary.1 "x" ⟨2024, 1, 2, 5, 0⟩
      (by decide) (by decide) (by decide) (by decide) (by decide),
   bucket_default_and_day_boundary.2.1 ⟨2024, 1, 2, 5, 0⟩ ⟨2024, 1, 2, 23, 1⟩ rfl rfl rfl,
   bucket_default_and_day_boundary.2.2 ⟨2024, 1, 2, 23, 0⟩ ⟨2024, 1, 3, 0, 0⟩
      (by decide) (by decide) (by decide) (by decide) (by decide) (by decide) (by decide)⟩

/-- C7: a handle matching the literal-identifier shape (leading `UC`, total
length 24) is used as the channel id unchanged, with zero cache loads, zero
cache writes and zero network queries; and the literal test holds exactly
the `UC`-prefix and length-24 conditions. -/
theorem resolve_literal_no_effects (oracle : String → String) (fs : FS) (user : String)
    (h : is_literal_channel_id user = true) :
    resolve_handle oracle fs user = .ok ⟨user, fs, [], 0, 0⟩ ∧
    (∃ rest, user.data = 'U' :: 'C' :: rest) ∧ user.length = 24 := by
  refine ⟨by simp [resolve_handle, h], ?_, ?_⟩
  · rw [is_literal_channel_id, Bool.and_eq_true] at h
    obtain ⟨h1, _⟩ := h
    unfold startsWithUC at h1
    rcases hd : user.data with _ | ⟨c1, _ | ⟨c2, rest⟩⟩ <;> rw [hd] at h1
    · exact absurd h1 Bool.false_ne_true
    · exact absurd h1 Bool.false_ne_true
    · rw [Bool.and_eq_true, beq_iff_eq, beq_iff_eq] at h1
      obtain ⟨hU, hC⟩ := h1
      subst hU
      subst hC
      exact ⟨rest, rfl⟩
  · rw [is_literal_channel_id, Bool.and_eq_true] at h
    have h2 := h.2
    rw [beq_iff_eq] at h2
    exact h2

/-- C7 (witness): the literal handle from the spec scenario resolves to
itself against an empty cache with no effects. -/
theorem resolve_literal_no_effects_witness :
    is_literal_channel_id "UCabcdefghijklmnopqrstuv" = true ∧
    resolve_handle (fun _ => "other") [] "UCabcdefghijklmnopqrstuv" =
      .ok ⟨"UCabcdefghijklmnopqrstuv", [], [], 0, 0⟩ :=
  ⟨by decide,
   (resolve_literal_no_effects (fun _ => "other") [] "UCabcdefghijklmnopqrstuv" (by decide)).1⟩

theorem channelUploads_get_queries (net : String → List String) (fs : FS)
    (cid ts : String) (force : Bool) :
    queriesOf (channelUploads_get net fs cid ts force) = [] ∨
    queriesOf (channelUploads_get net fs cid ts force) = [uploadsId cid] := by
  cases hl : load_cache fs (uploads_cache_name cid ts) (some (Value.vlist [])) with
  | error e => left; simp [channelUploads_get, hl, queriesOf]
  | ok v =>
    by_cases hc : (!(v.getD (Value.vlist [])).isTruthy || force) = true
    · right; simp [channelUploads_get, hl, queriesOf, hc]
    · left; simp [channelUploads_get, hl, queriesOf, hc]

theorem uploadsId_UC (rest : List Char) :
    uploadsId (String.mk ('U' :: 'C' :: rest)) = String.mk ('U' :: 'U' :: rest) := by
  simp [uploadsId]

theorem uploadsId_not_UC (cid : String)
    (h : ∀ rest : List Char, cid.data ≠ 'U' :: 'C' :: rest) :
    uploadsId cid = cid := by
  unfold uploadsId
  rcases hd : cid.data with _ | ⟨c1, _ | ⟨c2, rest⟩⟩
  · rfl
  · rfl
  · by_cases hb : (c1 == 'U' && c2 == 'C') = true
    · exfalso
      rw [Bool.and_eq_true, beq_iff_eq, beq_iff_eq] at hb
      obtain ⟨hU, hC⟩ := hb
      subst hU
      subst hC
      exact h rest hd
    · simp [hb]

/-- C10: whenever the upload fetcher issues a network query, the queried
playlist identifier is the channel identifier with a leading `UC` rewritten
to `UU`; a channel identifier not starting with `UC` is queried unchanged. -/
theorem uploads_feed_query_target (net : String → List String) (fs : FS)
    (ts : String) (force : Bool) :
    (∀ rest : List Char,
      queriesOf (channelUploads_get net fs (String.mk ('U' :: 'C' :: rest)) ts force) = [] ∨
      queriesOf (channelUploads_get net fs (String.mk ('U' :: 'C' :: rest)) ts force) =
        [String.mk ('U' :: 'U' :: rest)]) ∧
    (∀ cid : String, (∀ rest : List Char, cid.data ≠ 'U' :: 'C' :: rest) →
      queriesOf (channelUploads_get net fs cid ts force) = [] ∨
      queriesOf (channelUploads_get net fs cid ts force) = [cid]) := by
  constructor
  · intro rest
    have h := channelUploads_get_queries net fs (String.mk ('U' :: 'C' :: rest)) ts force
    rwa [uploadsId_UC] at h
  · intro cid hcid
    have h := channelUploads_get_queries net fs cid ts force
    rwa [uploadsId_not_UC cid hcid] at h

/-- C10 (witness): the theorem applied to a `UC`-prefixed channel id and to
one not starting with `UC`, against an empty cache with `force` set (so the
query branch is concretely reachable). -/
theorem uploads_feed_query_target_witness :
    (queriesOf (channelUploads_get (fun _ => ["v"]) [] (String.mk ['U', 'C', 'x']) "t" true) = [] ∨
     queriesOf (channelUploads_get (fun _ => ["v"]) [] (String.mk ['U', 'C', 'x']) "t" true) =
       [String.mk ['U', 'U', 'x']]) ∧
    (queriesOf (channelUploads_get (fun _ => ["v"]) [] "ab" "t" true) = [] ∨
     queriesOf (channelUploads_get (fun _ => ["v"]) [] "ab" "t" true) = ["ab"]) :=
  ⟨(uploads_feed_query_target (fun _ => ["v"]) [] "t" true).1 ['x'],
   (uploads_feed_query_target (fun _ => ["v"]) [] "t" true).2 "ab"
     (fun rest hr => by
       rw [show ("ab" : String).data = ['a', 'b'] from rfl] at hr
       injection hr with h1 _
       exact absurd h1 (by decide))⟩

/-- C9 (counterexample): `add` persists the in-memory set, not its union
with the persisted store: with `"old"` already persisted and a fresh
in-memory set (as after `ViewHistory.__init__`, before any `get`),
`add("vid1")` leaves a persisted snapshot `{"vid1"}` that no longer contains
the previously persisted identifier `"old"`. -/
theorem viewHistory_add_clobbers :
    viewHistory_get [("view_history.pkl", pickleDumps (Value.vset ["old"]))] =
      .ok (some (Value.vset ["old"])) ∧
    (viewHistory_add [("view_history.pkl", pickleDumps (Value.vset ["old"]))] [] "vid1").2 =
      [("view_history.pkl", pickleDumps (Value.vset ["vid1"]))] ∧
    viewHistory_get [("view_history.pkl", pickleDumps (Value.vset ["vid1"]))] =
      .ok (some (Value.vset ["vid1"])) ∧
    ("old" ∉ (["vid1"] : List String)) := by
  refine ⟨rfl, rfl, rfl, by decide⟩

/-- C9 (amended): `add(v)` inserts `v` into the in-memory set and persists
that entire in-memory set, so a snapshot loaded from the persisted store
afterwards (what a fresh process sees) is exactly the new in-memory set: it
contains `v` together with every identifier that was in the in-memory set —
in particular every previously persisted identifier when the in-memory set
had been loaded from the store beforehand, as the program does via `get`. -/
theorem viewHistory_add_persists (fs : FS) (views : List String) (v : String) :
    viewHistory_get (viewHistory_add fs views v).2 =
      .ok (some (Value.vset (viewHistory_add fs views v).1)) ∧
    v ∈ (viewHistory_add fs views v).1 ∧
    (∀ w, w ∈ views → w ∈ (viewHistory_add fs views v).1) := by
  refine ⟨?_, ?_, fun w hw => ?_⟩
  · simp [viewHistory_get, viewHistory_add, load_cache, save_cache, FS.lookup_write_self,
      pickleLoads_dumps]
  · simp only [viewHistory_add, setInsert]
    by_cases h : v ∈ views <;> simp [h]
  · simp only [viewHistory_add, setInsert]
    by_cases h : v ∈ views <;> simp [h, hw]

/-- C9 (witness): the amended theorem at a concrete store: after
`add "vid1"` on in-memory set `{"a"}`, the reloaded snapshot is the new set
and contains both `"vid1"` and `"a"`. -/
theorem viewHistory_add_persists_witness :
    viewHistory_get (viewHistory_add [] ["a"] "vid1").2 =
      .ok (some (Value.vset (viewHistory_add [] ["a"] "vid1").1)) ∧
    "vid1" ∈ (viewHistory_add [] ["a"] "vid1").1 ∧
    "a" ∈ (viewHistory_add [] ["a"] "vid1").1 :=
  ⟨(viewHistory_add_persists [] ["a"] "vid1").1,
   (viewHistory_add_persists [] ["a"] "vid1").2.1,
   (viewHistory_add_persists [] ["a"] "vid1").2.2 "a" (by decide)⟩

/-- C4 (counterexample): `force=true` does not issue a network query
regardless of prior cache state: with corrupted bytes cached under the key,
the load raises `UnpicklingError` before any query is issued, so the forced
fetch neither queries nor persists. -/
theorem fetch_force_corrupt_raises :
    channelUploads_get (fun _ => ["v"]) [(uploads_cache_name "UCx" "t", [PByte.op 99])]
      "UCx" "t" true = .error .unpicklingError ∧
    queriesOf (channelUploads_get (fun _ => ["v"])
      [(uploads_cache_name "UCx" "t", [PByte.op 99])] "UCx" "t" true) = [] := by
  exact ⟨rfl, rfl⟩

/-- C4 (amended): with `force=false`, a cached value decoding to a non-empty
list is returned as is, with no network query and no write; with
`force=true`, whenever the cache load does not raise (file absent, empty, or
decodable), exactly one query is issued and its result list is persisted
under the key. -/
theorem fetch_cache_hit_and_force (net : String → List String) (fs : FS) (cid ts : String) :
    (∀ bs l, FS.lookup fs (uploads_cache_name cid ts) = some bs →
      pickleLoads bs = .ok (Value.vlist l) → l ≠ [] →
      channelUploads_get net fs cid ts false = .ok ⟨Value.vlist l, fs, [], 0, 1⟩) ∧
    ((∀ bs, FS.lookup fs (uploads_cache_name cid ts) = some bs →
        pickleLoads bs ≠ .unpicklingError) →
      channelUploads_get net fs cid ts true =
        .ok ⟨Value.vlist (net (uploadsId cid)),
          FS.write fs (uploads_cache_name cid ts)
            (pickleDumps (Value.vlist (net (uploadsId cid)))),
          [uploadsId cid], 1, 1⟩) := by
  constructor
  · intro bs l h1 h2 hl
    have hemp : l.isEmpty = false := by
      cases l with
      | nil => exact absurd rfl hl
      | cons a l => rfl
    simp [channelUploads_get, load_cache, h1, h2, Value.isTruthy, hemp, save_cache]
  · intro hok
    cases h1 : FS.lookup fs (uploads_cache_name cid ts) with
    | none => simp [channelUploads_get, load_cache, h1, save_cache]
    | some bs =>
      cases h2 : pickleLoads bs with
      | ok v => simp [channelUploads_get, load_cache, h1, h2, save_cache]
      | eofError => simp [channelUploads_get, load_cache, h1, h2, save_cache]
      | unpicklingError => exact absurd h2 (hok bs h1)

/-- C4 (witness): the amended theorem at concrete states: a cache hit on a
concrete non-empty cached list, and a forced fetch against an empty cache
directory. -/
theorem fetch_cache_hit_and_force_witness :
    channelUploads_get (fun _ => ["v"])
      [(uploads_cache_name "UCx" "t", pickleDumps (Value.vlist ["a"]))] "UCx" "t" false =
      .ok ⟨Value.vlist ["a"],
        [(uploads_cache_name "UCx" "t", pickleDumps (Value.vlist ["a"]))], [], 0, 1⟩ ∧
    channelUploads_get (fun _ => ["v"]) [] "UCx" "t" true =
      .ok ⟨Value.vlist ((fun _ => ["v"]) (uploadsId "UCx")),
        FS.write [] (uploads_cache_name "UCx" "t")
          (pickleDumps (Value.vlist ((fun _ => ["v"]) (uploadsId "UCx")))),
        [uploadsId "UCx"], 1, 1⟩ :=
  ⟨(fetch_cache_hit_and_force (fun _ => ["v"])
      [(uploads_cache_name "UCx" "t", pickleDumps (Value.vlist ["a"]))] "UCx" "t").1
      (pickleDumps (Value.vlist ["a"])) ["a"] (by rfl) (pickleLoads_dumps _) (by decide),
   (fetch_cache_hit_and_force (fun _ => ["v"]) [] "UCx" "t").2 (fun bs hbs => nomatch hbs)⟩

theorem channelUploads_get_absent (net : String → List String) (fs : FS) (cid ts : String)
    (force : Bool) (h1 : FS.lookup fs (uploads_cache_name cid ts) = none) :
    channelUploads_get net fs cid ts force =
      .ok ⟨Value.vlist (net (uploadsId cid)),
        FS.write fs (uploads_cache_name cid ts)
          (pickleDumps (Value.vlist (net (uploadsId cid)))), [uploadsId cid], 1, 1⟩ := by
  simp [channelUploads_get, load_cache, h1, Value.isTruthy, save_cache]

theorem channelUploads_get_decoded (net : String → List String) (fs : FS) (cid ts : String)
    (force : Bool) (v : Value) (bs : List PByte)
    (h1 : FS.lookup fs (uploads_cache_name cid ts) = some bs)
    (h2 : pickleLoads bs = .ok v) :
    channelUploads_get net fs cid ts force =
      if (!v.isTruthy || force) = true then
        .ok ⟨Value.vlist (net (uploadsId cid)),
          FS.write fs (uploads_cache_name cid ts)
            (pickleDumps (Value.vlist (net (uploadsId cid)))), [uploadsId cid], 1, 1⟩
      else .ok ⟨v, fs, [], 0, 1⟩ := by
  by_cases hc : (!v.isTruthy || force) = true <;>
    simp [channelUploads_get, load_cache, h1, h2, save_cache, hc]

theorem channelUploads_get_eof (net : String → List String) (fs : FS) (cid ts : String)
    (force : Bool) (bs : List PByte)
    (h1 : FS.lookup fs (uploads_cache_name cid ts) = some bs)
    (h2 : pickleLoads bs = .eofError) :
    channelUploads_get net fs cid ts force =
      .ok ⟨Value.vlist (net (uploadsId cid)),
        FS.write fs (uploads_cache_name cid ts)
          (pickleDumps (Value.vlist (net (uploadsId cid)))), [uploadsId cid], 1, 1⟩ := by
  simp [channelUploads_get, load_cache, h1, h2, Value.isTruthy, save_cache]

theorem channelUploads_get_corrupt (net : String → List String) (fs : FS) (cid ts : String)
    (force : Bool) (bs : List PByte)
    (h1 : FS.lookup fs (uploads_cache_name cid ts) = some bs)
    (h2 : pickleLoads bs = .unpicklingError) :
    channelUploads_get net fs cid ts force = .error .unpicklingError := by
  simp [channelUploads_get, load_cache, h1, h2]

/-- C5: when a fetch actually queries and the network returns an empty
upload list, the empty list is persisted under the cache key, and the next
fetch with `force=false` for the same key treats the empty cached list as
absent and issues a new network query (the re-fetch-on-empty quirk). -/
theorem fetch_empty_cached_then_refetch (net : String → List String) (fs : FS)
    (cid ts : String) (force : Bool) (r : OpResult Value)
    (hnet : net (uploadsId cid) = [])
    (hget : channelUploads_get net fs cid ts force = .ok r)
    (hq : r.netQueries ≠ []) :
    FS.lookup r.fs (uploads_cache_name cid ts) = some (pickleDumps (Value.vlist [])) ∧
    channelUploads_get net r.fs cid ts false =
      .ok ⟨Value.vlist [], FS.write r.fs (uploads_cache_name cid ts)
        (pickleDumps (Value.vlist [])), [uploadsId cid], 1, 1⟩ := by
  have hrfs : r.fs = FS.write fs (uploads_cache_name cid ts) (pickleDumps (Value.vlist [])) := by
    cases h1 : FS.lookup fs (uploads_cache_name cid ts) with
    | none =>
      have he := channelUploads_get_absent net fs cid ts force h1
      rw [hget] at he
      rw [Except.ok.inj he]
      simp [hnet]
    | some bs =>
      cases h2 : pickleLoads bs with
      | ok v =>
        have he := channelUploads_get_decoded net fs cid ts force v bs h1 h2
        rw [hget] at he
        by_cases hc : (!v.isTruthy || force) = true
        · rw [if_pos hc] at he
          rw [Except.ok.inj he]
          simp [hnet]
        · rw [if_neg hc] at he
          rw [Except.ok.inj he] at hq
          exact absurd rfl hq
      | eofError =>
        have he := channelUploads_get_eof net fs cid ts force bs h1 h2
        rw [hget] at he
        rw [Except.ok.inj he]
        simp [hnet]
      | unpicklingError =>
        have he := channelUploads_get_corrupt net fs cid ts force bs h1 h2
        rw [hget] at he
        exact absurd he (by simp)
  constructor
  · rw [hrfs]
    exact FS.lookup_write_self fs (uploads_cache_name cid ts) (pickleDumps (Value.vlist []))
  · rw [hrfs]
    have he := channelUploads_get_decoded net
      (FS.write fs (uploads_cache_name cid ts) (pickleDumps (Value.vlist []))) cid ts false
      (Value.vlist []) (pickleDumps (Value.vlist []))
      (FS.lookup_write_self fs (uploads_cache_name cid ts) (pickleDumps (Value.vlist [])))
      (pickleLoads_dumps (Value.vlist []))
    rw [he]
    simp [Value.isTruthy, hnet]

/-- C5 (witness): the theorem at a concrete state: a forced fetch against an
empty cache with a network returning zero uploads persists the empty list,
and the follow-up plain fetch queries again. -/
theorem fetch_empty_cached_then_refetch_witness :
    FS.lookup (FS.write [] (uploads_cache_name "UCx" "t") (pickleDumps (Value.vlist [])))
      (uploads_cache_name "UCx" "t") = some (pickleDumps (Value.vlist [])) ∧
    channelUploads_get (fun _ => [])
      (FS.write [] (uploads_cache_name "UCx" "t") (pickleDumps (Value.vlist [])))
      "UCx" "t" false =
      .ok ⟨Value.vlist [],
        FS.write (FS.write [] (uploads_cache_name "UCx" "t") (pickleDumps (Value.vlist [])))
          (uploads_cache_name "UCx" "t") (pickleDumps (Value.vlist [])),
        [uploadsId "UCx"], 1, 1⟩ :=
  fetch_empty_cached_then_refetch (fun _ => []) [] "UCx" "t" true
    ⟨Value.vlist [], FS.write [] (uploads_cache_name "UCx" "t") (pickleDumps (Value.vlist [])),
      [uploadsId "UCx"], 1, 1⟩
    rfl rfl (by decide)

/-- The channel-id mapping file is absent, empty, or decodes to a mapping
(the states the program itself produces). -/
def IdsCacheWF (fs : FS) : Prop :=
  match FS.lookup fs channelIdsCacheName with
  | none => True
  | some bs =>
    match pickleLoads bs with
    | .ok (Value.vdict _) => True
    | .eofError => True
    | _ => False

/-- The handle-to-identifier mapping `ChannelID.get` works on after its
cache load (empty when the file is absent or empty). -/
def loadedIds (fs : FS) : List (String × String) :=
  match FS.lookup fs channelIdsCacheName with
  | none => []
  | some bs =>
    match pickleLoads bs with
    | .ok (Value.vdict m) => m
    | _ => []

theorem channelID_get_hit (oracle : String → String) (fs : FS) (u cid : String)
    (hwf : IdsCacheWF fs) (hcid : dictGet (loadedIds fs) u = some cid) :
    channelID_get oracle fs u = .ok ⟨cid, fs, [], 0, 1⟩ := by
  unfold IdsCacheWF at hwf
  unfold loadedIds at hcid
  cases h1 : FS.lookup fs channelIdsCacheName with
  | none =>
    simp only [h1] at hcid
    exact absurd hcid (by simp [dictGet])
  | some bs =>
    simp only [h1] at hwf hcid
    cases h2 : pickleLoads bs with
    | ok v =>
      simp only [h2] at hwf hcid
      cases v with
      | vdict m =>
        have hcid2 : dictGet m u = some cid := hcid
        simp [channelID_get, load_cache, h1, h2, hcid2]
      | vlist l => exact (hwf : False).elim
      | vset s => exact (hwf : False).elim
    | eofError =>
      simp only [h2] at hcid
      exact absurd (show dictGet [] u = some cid from hcid) (by simp [dictGet])
    | unpicklingError =>
      rw [h2] at hwf
      exact (hwf : False).elim

theorem channelID_get_miss (oracle : String → String) (fs : FS) (u : String)
    (hwf : IdsCacheWF fs) (hcid : dictGet (loadedIds fs) u = none) :
    channelID_get oracle fs u =
      .ok ⟨oracle u, FS.write fs channelIdsCacheName
        (pickleDumps (Value.vdict (dictSet (loadedIds fs) u (oracle u)))), [u], 1, 1⟩ := by
  unfold IdsCacheWF at hwf
  unfold loadedIds at hcid ⊢
  cases h1 : FS.lookup fs channelIdsCacheName with
  | none =>
    simp only [h1] at hcid ⊢
    simp [channelID_get, load_cache, h1, dictGet, save_cache]
  | some bs =>
    simp only [h1] at hwf hcid ⊢
    cases h2 : pickleLoads bs with
    | ok v =>
      simp only [h2] at hwf hcid ⊢
      cases v with
      | vdict m =>
        have hcid2 : dictGet m u = none := hcid
        simp [channelID_get, load_cache, h1, h2, hcid2, save_cache]
      | vlist l => exact (hwf : False).elim
      | vset s => exact (hwf : False).elim
    | eofError =>
      simp only [h2] at hcid ⊢
      simp [channelID_get, load_cache, h1, h2, dictGet, save_cache]
    | unpicklingError =>
      rw [h2] at hwf
      exact (hwf : False).elim

theorem loadedIds_after_write (fs : FS) (m : List (String × String)) :
    loadedIds (FS.write fs channelIdsCacheName (pickleDumps (Value.vdict m))) = m := by
  unfold loadedIds
  simp only [FS.lookup_write_self, pickleLoads_dumps]

theorem IdsCacheWF_after_write (fs : FS) (m : List (String × String)) :
    IdsCacheWF (FS.write fs channelIdsCacheName (pickleDumps (Value.vdict m))) := by
  unfold IdsCacheWF
  simp only [FS.lookup_write_self, pickleLoads_dumps]

/-- C6: resolving a non-literal handle twice from a well-formed cache state
issues at most one network query in total: the first call queries exactly
when the loaded mapping misses the handle (performing exactly one persisted
write then, and zero writes plus zero queries on a hit), and the second call
is always a pure cache hit with zero queries and zero writes. -/
theorem resolve_nonliteral_caches (oracle : String → String) (fs : FS) (u : String)
    (hlit : is_literal_channel_id u = false) (hwf : IdsCacheWF fs) :
    ∃ r1 : OpResult String,
      resolve_handle oracle fs u = .ok r1 ∧
      r1.cacheWrites = r1.netQueries.length ∧
      r1.netQueries.length ≤ 1 ∧
      (dictGet (loadedIds fs) u = none →
        r1.value = oracle u ∧ r1.netQueries = [u] ∧ r1.cacheWrites = 1) ∧
      (∀ cid, dictGet (loadedIds fs) u = some cid →
        r1.value = cid ∧ r1.netQueries = [] ∧ r1.cacheWrites = 0 ∧ r1.fs = fs) ∧
      resolve_handle oracle r1.fs u = .ok ⟨r1.value, r1.fs, [], 0, 1⟩ := by
  have hres : resolve_handle oracle fs u = channelID_get oracle fs u := by
    simp [resolve_handle, hlit]
  cases hc : dictGet (loadedIds fs) u with
  | none =>
    refine ⟨⟨oracle u, FS.write fs channelIdsCacheName
      (pickleDumps (Value.vdict (dictSet (loadedIds fs) u (oracle u)))), [u], 1, 1⟩,
      ?_, rfl, ?_, ?_, ?_, ?_⟩
    · rw [hres]
      exact channelID_get_miss oracle fs u hwf hc
    · simp
    · intro hn
      exact ⟨rfl, rfl, rfl⟩
    · intro cid hcid
      exact Option.noConfusion hcid
    · show resolve_handle oracle (FS.write fs channelIdsCacheName
        (pickleDumps (Value.vdict (dictSet (loadedIds fs) u (oracle u))))) u =
        .ok ⟨oracle u, FS.write fs channelIdsCacheName
          (pickleDumps (Value.vdict (dictSet (loadedIds fs) u (oracle u)))), [], 0, 1⟩
      have hres2 : resolve_handle oracle
          (FS.write fs channelIdsCacheName
            (pickleDumps (Value.vdict (dictSet (loadedIds fs) u (oracle u))))) u =
          channelID_get oracle
            (FS.write fs channelIdsCacheName
              (pickleDumps (Value.vdict (dictSet (loadedIds fs) u (oracle u))))) u := by
        simp [resolve_handle, hlit]
      rw [hres2]
      exact channelID_get_hit oracle _ u (oracle u)
        (IdsCacheWF_after_write fs _)
        (by rw [loadedIds_after_write]; exact dictGet_dictSet_self (loadedIds fs) u (oracle u))
  | some cid =>
    refine ⟨⟨cid, fs, [], 0, 1⟩, ?_, rfl, ?_, ?_, ?_, ?_⟩
    · rw [hres]
      exact channelID_get_hit oracle fs u cid hwf hc
    · simp
    · intro hn
      exact Option.noConfusion hn
    · intro cid2 hcid2
      exact ⟨Option.some.inj hcid2, rfl, rfl, rfl⟩
    · show resolve_handle oracle fs u = .ok ⟨cid, fs, [], 0, 1⟩
      rw [hres]
      exact channelID_get_hit oracle fs u cid hwf hc

/-- C6 (witness): the theorem at the spec scenario: handle `"someuser"`
against an empty cache directory. -/
theorem resolve_nonliteral_caches_witness :
    is_literal_channel_id "someuser" = false ∧ IdsCacheWF [] ∧
    (∃ r1 : OpResult String,
      resolve_handle (fun _ => "UCresolvedid") [] "someuser" = .ok r1 ∧
      r1.cacheWrites = r1.netQueries.length ∧
      r1.netQueries.length ≤ 1 ∧
      (dictGet (loadedIds []) "someuser" = none →
        r1.value = (fun _ => "UCresolvedid") "someuser" ∧
        r1.netQueries = ["someuser"] ∧ r1.cacheWrites = 1) ∧
      (∀ cid, dictGet (loadedIds []) "someuser" = some cid →
        r1.value = cid ∧ r1.netQueries = [] ∧ r1.cacheWrites = 0 ∧ r1.fs = []) ∧
      resolve_handle (fun _ => "UCresolvedid") r1.fs "someuser" =
        .ok ⟨r1.value, r1.fs, [], 0, 1⟩) :=
  ⟨by decide, trivial,
   resolve_nonliteral_caches (fun _ => "UCresolvedid") [] "someuser" (by decide) trivial⟩

end Ytls
